import Mathlib

/-!
A shallow embedding of the GVariant codec (src/gvariant.js) in Lean 4.
The JavaScript source is translated function by function:

* JS numbers holding byte positions and sizes are modelled as `Nat`
  (or `Int` where the source can produce negative intermediate values);
* the input byte buffer is a `List Nat`; reads at arbitrary offsets
  are total and yield `0` out of range, following the spec's input-buffer
  collaborator contract ("supports little-endian reads at arbitrary byte
  offsets"); text is modelled by its UTF-8 byte sequence;
* thrown exceptions (`RangeError` from the offset codec, `TypeError`
  from `parseType`, including the native property-access failures on
  truncated signatures) become `Except GErr`;
* the recursion through `parse` inside the variant reader is paid for by
  an explicit fuel argument (structural recursion); fuel is decremented
  on every recursive call and exhaustion is a distinct error that is
  never reached for the inputs considered in the theorems below.
-/

/-- Error kinds of the codec: `invalidSignature` models the `TypeError`
thrown by `parseType` (and the native `TypeError`s raised inside
`nextType` on truncated signatures), `rangeError` the `RangeError` thrown
by the offset codec, `typeMismatch` the host-level failures when a value
does not fit its type on write, and `outOfFuel` is the fuel artifact. -/
inductive GErr where
  | invalidSignature
  | rangeError
  | typeMismatch
  | outOfFuel
deriving DecidableEq, Repr

/-- Parsed GVariant values: integers (all integral types), `float`
(an IEEE-754 double modelled by its 64-bit pattern), booleans, text
(as UTF-8 bytes), `null` (maybe's Nothing), sequences, mappings
(arrays of dict-entries), and variant records. -/
inductive Value where
  | int (n : Int)
  | float (bits : Nat)
  | bool (b : Bool)
  | str (bytes : List Nat)
  | null
  | seq (vs : List Value)
  | dict (entries : List (Value × Value))
  | variant (ty : String) (v : Value)

/-- Byte read at a position; out-of-range reads yield 0 (total collaborator). -/
def getByte (buf : List Nat) (i : Nat) : Nat := buf.getD i 0

/-- Byte read at a possibly negative position. -/
def getByteI (buf : List Nat) (i : Int) : Nat :=
  if i < 0 then 0 else getByte buf i.toNat

/-- Little-endian unsigned read of `w` bytes starting at `pos`. -/
def readLEI (buf : List Nat) (w : Nat) (pos : Int) : Nat :=
  (List.range w).foldl (fun acc (j : Nat) => acc + getByteI buf (pos + (j : Int)) * 2 ^ (8 * j)) 0

/-- `buf.readUInt16LE(i)`. -/
def readUInt16LE (buf : List Nat) (i : Nat) : Nat :=
  getByte buf i + 256 * getByte buf (i + 1)

/-- `buf.readUInt32LE(i)`. -/
def readUInt32LE (buf : List Nat) (i : Nat) : Nat :=
  getByte buf i + 256 * getByte buf (i + 1) + 65536 * getByte buf (i + 2) +
    16777216 * getByte buf (i + 3)

/-- Two's-complement reinterpretation of a `w`-bit unsigned value. -/
def toSigned (w : Nat) (n : Nat) : Int :=
  if n < 2 ^ (w - 1) then (n : Int) else (n : Int) - 2 ^ w

/-- `buf.slice(s, e)` / `buf.toString(…, s, e)` range (clamping, empty when inverted). -/
def listSlice (l : List Nat) (s e : Nat) : List Nat := (l.take e).drop s

/-- `buf.toString('ascii', …)`: Node's ascii decoding masks the high bit. -/
def asciiString (bs : List Nat) : String :=
  String.mk (bs.map fun b => Char.ofNat (b % 128))

/-- Little-endian bytes of `n mod 2^(8w)`, as appended by the buffer's
`appendUInt8/16/32` writers. -/
def leBytes (w : Nat) (n : Nat) : List Nat :=
  (List.range w).map fun i => n / 2 ^ (8 * i) % 256

/-- Little-endian bytes of the two's complement of an integer. -/
def leBytesI (w : Nat) (n : Int) : List Nat :=
  leBytes w (n.emod (2 ^ (8 * w))).toNat

/-- The source's `align(n, size) = n + (size - n % size) % size`. -/
def alignN (n size : Nat) : Nat := n + (size - n % size) % size

/-- `buf.align(n)`: pad with zero bytes so that the length is a multiple of `n`. -/
def alignBuf (buf : List Nat) (n : Nat) : List Nat :=
  buf ++ List.replicate ((n - buf.length % n) % n) 0

/-- Offset-cell width selection of `offsetInfo(buf, start, end)`:
1, 2 or 4 bytes by the frame length, `RangeError` beyond `0xffffffff`.
(The source couples the width with a reader closure; the reads are
modelled separately by `offsetRead` below.) -/
def offsetInfo (s e : Nat) : Except GErr Nat :=
  if e - s ≤ 0xff then .ok 1
  else if e - s ≤ 0xffff then .ok 2
  else if e - s ≤ 0xffffffff then .ok 4
  else .error .rangeError

/-- `offsets.read(i)`: `start + buf.readUIntLE(end + w*i)` (with `i` negative,
reading the offset table at the tail of the frame). -/
def offsetRead (buf : List Nat) (s e w : Nat) (i : Int) : Nat :=
  s + readLEI buf w ((e : Int) + (w : Int) * i)

/-- `writeOffsets(buf, offsets, start, end)`: append each offset as a cell of
the width selected by the frame length, `RangeError` beyond `0xffffffff`. -/
def writeOffsets (buf : List Nat) (offsets : List Nat) (s e : Nat) :
    Except GErr (List Nat) :=
  if e - s ≤ 0xff then .ok (buf ++ (offsets.map (leBytes 1)).flatten)
  else if e - s ≤ 0xffff then .ok (buf ++ (offsets.map (leBytes 2)).flatten)
  else if e - s ≤ 0xffffffff then .ok (buf ++ (offsets.map (leBytes 4)).flatten)
  else .error .rangeError

/-- Type descriptors built by `nextType`, one constructor per type code. -/
inductive GType where
  | y | n | q | i | u | x | t | d | b
  | s | o | g
  | v
  | m (el : GType)
  | tuple (els : List GType)
  | dict (key val : GType)
  | array (el : GType)

mutual
/-- The `alignment` field of each descriptor. -/
def alignment : GType → Nat
  | .y => 1
  | .n => 2
  | .q => 2
  | .i => 4
  | .u => 4
  | .x => 8
  | .t => 8
  | .d => 8
  | .b => 1
  | .s => 1
  | .o => 1
  | .g => 1
  | .v => 8
  | .m el => alignment el
  | .tuple els => tupleAlign 1 els
  | .dict key val => max (alignment key) (alignment val)
  | .array el => alignment el

/-- The tuple case's `alignment = Math.max(alignment, el.alignment)` loop. -/
def tupleAlign : Nat → List GType → Nat
  | acc, [] => acc
  | acc, el :: els => tupleAlign (max acc (alignment el)) els
end

mutual
/-- The `fixedSize` field: `none` models both a missing property and the
`NaN` produced by the tuple/dict accumulation over a variable-size child
(both are falsy and never used numerically in the source). -/
def fixedSize : GType → Option Nat
  | .y => some 1
  | .n => some 2
  | .q => some 2
  | .i => some 4
  | .u => some 4
  | .x => some 8
  | .t => some 8
  | .d => some 8
  | .b => some 1
  | .s => none
  | .o => none
  | .g => none
  | .v => none
  | .m _ => none
  | .tuple els =>
    match tupleSize 0 els with
    | some sz => some (if sz = 0 then 1 else sz)
    | none => none
  | .dict key val =>
    match fixedSize key, fixedSize val with
    | some kfs, some vfs => some (alignN kfs (alignment val) + vfs)
    | _, _ => none
  | .array _ => none

/-- The tuple case's `size = align(size, el.alignment) + el.fixedSize` loop. -/
def tupleSize : Nat → List GType → Option Nat
  | acc, [] => some acc
  | acc, el :: els =>
    match fixedSize el with
    | some fs => tupleSize (alignN acc (alignment el) + fs) els
    | none => none
end

mutual
/-- The `id` of a descriptor (its canonical signature; the source slices it
out of the input string, and only ever uses its length and its first
character). -/
def idOf : GType → List Char
  | .y => ['y']
  | .n => ['n']
  | .q => ['q']
  | .i => ['i']
  | .u => ['u']
  | .x => ['x']
  | .t => ['t']
  | .d => ['d']
  | .b => ['b']
  | .s => ['s']
  | .o => ['o']
  | .g => ['g']
  | .v => ['v']
  | .m el => 'm' :: idOf el
  | .tuple els => '(' :: (idList els ++ [')'])
  | .dict key val => '{' :: (idOf key ++ (idOf val ++ ['}']))
  | .array el => 'a' :: idOf el

/-- Concatenated ids of a tuple's children. -/
def idList : List GType → List Char
  | [] => []
  | el :: els => idOf el ++ idList els
end

mutual
/-- The `defaultValue` field of each descriptor. -/
def defaultValue : GType → Value
  | .y => .int 0
  | .n => .int 0
  | .q => .int 0
  | .i => .int 0
  | .u => .int 0
  | .x => .int 0
  | .t => .int 0
  | .d => .float 0
  | .b => .bool false
  | .s => .str []
  | .o => .str []
  | .g => .str []
  | .v => .variant "()" (.seq [])
  | .m _ => .null
  | .tuple els => .seq (defaultList els)
  | .dict key val => .seq [defaultValue key, defaultValue val]
  | .array _ => .seq []

/-- Children defaults of a tuple. -/
def defaultList : List GType → List Value
  | [] => []
  | el :: els => defaultValue el :: defaultList els
end

mutual
/-- `nextType(signature, index)`, rebased so that the list argument is the
signature from `index` on; returns the descriptor and the consumed length
(`id.length` in the source).  `none` covers both the missing-case
`undefined` result on an unknown character and the native `TypeError`
raised by accessing `.id` of `undefined` on truncated `m`/`a`/`(`/`{`
forms.  The fuel argument makes the recursion structural; every call
site supplies enough of it. -/
def nextTypeF : Nat → List Char → Option (GType × Nat)
  | 0, _ => none
  | _ + 1, [] => none
  | fuel + 1, c :: rest =>
    match c with
    | 'y' => some (.y, 1)
    | 'n' => some (.n, 1)
    | 'q' => some (.q, 1)
    | 'i' => some (.i, 1)
    | 'u' => some (.u, 1)
    | 'x' => some (.x, 1)
    | 't' => some (.t, 1)
    | 'd' => some (.d, 1)
    | 'b' => some (.b, 1)
    | 's' => some (.s, 1)
    | 'o' => some (.o, 1)
    | 'g' => some (.g, 1)
    | 'v' => some (.v, 1)
    | 'm' =>
      match nextTypeF fuel rest with
      | some (el, k) => some (.m el, k + 1)
      | none => none
    | 'a' =>
      match nextTypeF fuel rest with
      | some (el, k) => some (.array el, k + 1)
      | none => none
    | '(' =>
      match tupleBodyF fuel rest with
      | some (els, k) => some (.tuple els, k + 1)
      | none => none
    | '{' =>
      -- the source never checks the closing '}'; its id is
      -- `substr(index, key.id.length + value.id.length + 2)`, which
      -- clamps at the end of the string — hence the `min`.
      match nextTypeF fuel rest with
      | some (keyT, kk) =>
        match nextTypeF fuel (rest.drop kk) with
        | some (valT, kv) => some (.dict keyT valT, min (kk + kv + 2) (rest.length + 1))
        | none => none
      | none => none
    | _ => none

/-- The `while (signature[end] !== ')')` loop of the tuple case; returns the
children and the consumed length including the closing parenthesis. -/
def tupleBodyF : Nat → List Char → Option (List GType × Nat)
  | 0, _ => none
  | _ + 1, [] => none
  | fuel + 1, c :: rest =>
    if c = ')' then some ([], 1)
    else
      match nextTypeF fuel (c :: rest) with
      | some (el, k) =>
        match tupleBodyF fuel ((c :: rest).drop k) with
        | some (els, k2) => some (el :: els, k + k2)
        | none => none
      | none => none
end

/-- `parseType(str)`: parse one type and require it to consume the whole
string, else the `invalid type string` `TypeError`. -/
def parseType (str : String) : Except GErr GType :=
  match nextTypeF (2 * str.length + 4) str.data with
  | some (ty, k) => if k = str.length then .ok ty else .error .invalidSignature
  | none => .error .invalidSignature

/-- JavaScript object keys are strings: the key of each dict-entry is
coerced by `o[v[0]] = v[1]`.  Leaf values render as in JS; composite keys
cannot occur in well-formed dict-entries. -/
def keyString : Value → String
  | .int n => toString n
  | .str bs => asciiString bs
  | .bool b => toString b
  | .float bits => toString bits
  | _ => "object"

/-- One step of the `values.reduce(function (o, v) { o[v[0]] = v[1]; … })`
fold: JS objects overwrite in place on duplicate keys and append new keys. -/
def dictInsert (m : List (Value × Value)) (k v : Value) : List (Value × Value) :=
  if m.any (fun p => keyString p.1 == keyString k) then
    m.map fun p => if keyString p.1 == keyString k then (p.1, v) else p
  else m ++ [(k, v)]

/-- The dict-entry array reduce: each element is a `[key, value]` pair. -/
def mkDict : List Value → List (Value × Value) → List (Value × Value)
  | [], acc => acc
  | .seq [k, v] :: vs, acc => mkDict vs (dictInsert acc k v)
  | _ :: vs, acc => mkDict vs acc

/-- Post-processing of the array reader: dict-entry elements are folded
into a mapping (`this.element.id[0] === '{'`). -/
def mkArrayValue (el : GType) (vs : List Value) : Value :=
  if (idOf el).head? = some '{' then .dict (mkDict vs []) else .seq vs

/-- The variant reader's backward scan for the first `0x00` byte, from
`end - 1` down to `start`. -/
def scanNul (buf : List Nat) (s e : Nat) : Option Nat :=
  go (e - s)
where
  go : Nat → Option Nat
    | 0 => none
    | k + 1 => if getByte buf (s + k) = 0 then some (s + k) else go k

/-- The text (`s`/`o`/`g`) reader: empty, or the last byte not `0x00`, gives
`""`; otherwise decode `[start, end-1)` and truncate at the first NUL
(`str.indexOf('\0')` + `substring`). -/
def stringRead (buf : List Nat) (s e : Nat) : List Nat :=
  if s = e || getByte buf (e - 1) != 0 then []
  else
    let str := listSlice buf s (e - 1)
    match str.findIdx? (fun b => b == 0) with
    | some nul => str.take nul
    | none => str

mutual
/-- Structural size of a value, used to provision write fuel. -/
def vsize : Value → Nat
  | .int _ => 1
  | .float _ => 1
  | .bool _ => 1
  | .str _ => 1
  | .null => 1
  | .seq vs => 1 + vsizeL vs
  | .dict es => 1 + vsizeP es
  | .variant ty v => 1 + 2 * ty.length + vsize v

/-- Size of a list of values. -/
def vsizeL : List Value → Nat
  | [] => 0
  | v :: vs => 1 + vsize v + vsizeL vs

/-- Size of a list of key-value pairs. -/
def vsizeP : List (Value × Value) → Nat
  | [] => 0
  | (k, v) :: es => 1 + vsize k + vsize v + vsizeP es
end

/-- Call shapes of the reader: a single value over a window, the tuple
element loop, and the two array loops.  Bundling them into one inductive
keeps the recursion structural on the fuel argument. -/
inductive ReadTask where
  | typ (ty : GType) (s e : Nat)
  | tupElems (els : List GType) (s e w cur cnt : Nat)
  | arrFix (el : GType) (cur fs rem : Nat)
  | arrVar (el : GType) (s e w : Nat) (n : Int) (i rem cur : Nat)

/-- Result of a reader call: one value for `typ`, a value list for the
loop tasks. -/
inductive ReadRes where
  | val (v : Value)
  | vals (vs : List Value)

/-- The `read(buf, start, end)` closures of `nextType`, one arm per type
code, driven over the byte window `[s, e)`.  Subtractions that are
negative in JavaScript are `Nat`-truncated where only comparisons with
positive constants are involved (same outcome), and carried out in `Int`
in the array reader where the sign matters.  Loop tasks always return
`.vals` and `typ` tasks always return `.val`; the `typeMismatch` arms
destructuring them are unreachable. -/
def readGo : Nat → List Nat → ReadTask → Except GErr ReadRes
  | 0, _, _ => .error .outOfFuel
  | _ + 1, buf, .typ .y s e =>
    if e - s ≠ 1 then .ok (.val (.int 0)) else .ok (.val (.int (getByte buf s)))
  | _ + 1, buf, .typ .n s e =>
    if e - s ≠ 2 then .ok (.val (.int 0))
    else .ok (.val (.int (toSigned 16 (readUInt16LE buf s))))
  | _ + 1, buf, .typ .q s e =>
    if e - s ≠ 2 then .ok (.val (.int 0)) else .ok (.val (.int (readUInt16LE buf s)))
  | _ + 1, buf, .typ .i s e =>
    if e - s ≠ 4 then .ok (.val (.int 0))
    else .ok (.val (.int (toSigned 32 (readUInt32LE buf s))))
  | _ + 1, buf, .typ .u s e =>
    if e - s ≠ 4 then .ok (.val (.int 0)) else .ok (.val (.int (readUInt32LE buf s)))
  | _ + 1, buf, .typ .x s e =>
    -- Long.fromBits(lo, hi).toNumber(), modelled exactly
    if e - s ≠ 8 then .ok (.val (.int 0))
    else .ok (.val (.int (toSigned 64
      (readUInt32LE buf s + 4294967296 * readUInt32LE buf (s + 4)))))
  | _ + 1, buf, .typ .t s e =>
    if e - s ≠ 8 then .ok (.val (.int 0))
    else .ok (.val (.int (readUInt32LE buf s + 4294967296 * readUInt32LE buf (s + 4))))
  | _ + 1, buf, .typ .d s e =>
    -- readDoubleLE, with the double modelled by its 64-bit pattern
    if e - s ≠ 8 then .ok (.val (.float 0))
    else .ok (.val (.float (readUInt32LE buf s + 4294967296 * readUInt32LE buf (s + 4))))
  | _ + 1, buf, .typ .b s e =>
    if e - s ≠ 1 then .ok (.val (.bool false))
    else .ok (.val (.bool (getByte buf s != 0)))
  | _ + 1, buf, .typ .s s e => .ok (.val (.str (stringRead buf s e)))
  | _ + 1, buf, .typ .o s e => .ok (.val (.str (stringRead buf s e)))
  | _ + 1, buf, .typ .g s e => .ok (.val (.str (stringRead buf s e)))
  | fuel + 1, buf, .typ .v s e =>
    -- scan backward for the first 0x00; no fallback exists when none is
    -- found: the whole frame is then decoded as the signature and the
    -- data is `buf.slice(start, start - 1)`, which for `start = 0` is
    -- Node's `slice(0, -1)`, i.e. all but the last byte.
    match scanNul buf s e with
    | some sep =>
      let tyStr := asciiString (listSlice buf (sep + 1) e)
      let data := listSlice buf s sep
      match parseType tyStr with
      | .error er => .error er
      | .ok ty =>
        match readGo fuel data (.typ ty 0 data.length) with
        | .ok (.val v) => .ok (.val (.variant tyStr v))
        | .ok (.vals _) => .error .typeMismatch
        | .error er => .error er
    | none =>
      let tyStr := asciiString (listSlice buf s e)
      let data := if s = 0 then listSlice buf 0 (buf.length - 1) else []
      match parseType tyStr with
      | .error er => .error er
      | .ok ty =>
        match readGo fuel data (.typ ty 0 data.length) with
        | .ok (.val v) => .ok (.val (.variant tyStr v))
        | .ok (.vals _) => .error .typeMismatch
        | .error er => .error er
  | fuel + 1, buf, .typ (.m el) s e =>
    if s = e then .ok (.val .null)
    else
      match fixedSize el with
      | some fs =>
        if e - s ≠ fs then .ok (.val .null) else readGo fuel buf (.typ el s e)
      | none => readGo fuel buf (.typ el s (e - 1))
  | fuel + 1, buf, .typ (.tuple els) s e =>
    if (match fixedSize (.tuple els) with | some fs => e - s != fs | none => false) then
      .ok (.val (defaultValue (.tuple els)))
    else
      match offsetInfo s e with
      | .error er => .error er
      | .ok w =>
        match readGo fuel buf (.tupElems els s e w s 0) with
        | .ok (.vals vs) => .ok (.val (.seq vs))
        | .ok (.val _) => .error .typeMismatch
        | .error er => .error er
  | fuel + 1, buf, .typ (.dict keyT valT) s e =>
    if (match fixedSize (.dict keyT valT) with | some fs => e - s != fs | none => false) then
      .ok (.val (defaultValue (.dict keyT valT)))
    else
      match offsetInfo s e with
      | .error er => .error er
      | .ok w =>
        let ends :=
          match fixedSize keyT with
          | some fs => (s + fs, e)
          | none => (offsetRead buf s e w (-1), e - w)
        match readGo fuel buf (.typ keyT s ends.1) with
        | .error er => .error er
        | .ok (.vals _) => .error .typeMismatch
        | .ok (.val kv) =>
          match readGo fuel buf (.typ valT (alignN ends.1 (alignment valT)) ends.2) with
          | .error er => .error er
          | .ok (.vals _) => .error .typeMismatch
          | .ok (.val vv) => .ok (.val (.seq [kv, vv]))
  | fuel + 1, buf, .typ (.array el) s e =>
    if s = e then .ok (.val (if (idOf el).head? = some '{' then .dict [] else .seq []))
    else
      let size : Int := (e : Int) - (s : Int)
      match fixedSize el with
      | some fs =>
        if size.tmod fs ≠ 0 then .ok (.val (.seq []))
        else
          match readGo fuel buf (.arrFix el s fs (size.tdiv fs).toNat) with
          | .ok (.vals vs) => .ok (.val (mkArrayValue el vs))
          | .ok (.val _) => .error .typeMismatch
          | .error er => .error er
      | none =>
        match offsetInfo s e with
        | .error er => .error er
        | .ok w =>
          -- n = (end - offsets.read(-1)) / offsets.size; for frames the
          -- writer produced this division is exact, the truncating
          -- quotient stands in for JS float division elsewhere
          let n : Int := ((e : Int) - (offsetRead buf s e w (-1) : Int)).tdiv w
          match readGo fuel buf (.arrVar el s e w n 0 n.toNat s) with
          | .ok (.vals vs) => .ok (.val (mkArrayValue el vs))
          | .ok (.val _) => .error .typeMismatch
          | .error er => .error er
  | _ + 1, _, .tupElems [] _ _ _ _ _ => .ok (.vals [])
  | fuel + 1, buf, .tupElems (el :: els) s e w cur cnt =>
    -- the tuple loop: `cur`/`curOffset` threading, with fixed-size
    -- children ending at `cur + fixedSize`, non-last variable children at
    -- `offsets.read(--curOffset)`, and a last variable child at
    -- `end - offsets.size * -curOffset`.
    let cur' := alignN cur (alignment el)
    let step :=
      match fixedSize el with
      | some fs => (cur' + fs, cnt)
      | none =>
        match els with
        | _ :: _ => (offsetRead buf s e w (-(cnt + 1 : Int)), cnt + 1)
        | [] => (e - w * cnt, cnt)
    match readGo fuel buf (.typ el cur' step.1) with
    | .error er => .error er
    | .ok (.vals _) => .error .typeMismatch
    | .ok (.val v) =>
      match readGo fuel buf (.tupElems els s e w step.1 step.2) with
      | .error er => .error er
      | .ok (.val _) => .error .typeMismatch
      | .ok (.vals vs) => .ok (.vals (v :: vs))
  | _ + 1, _, .arrFix _ _ _ 0 => .ok (.vals [])
  | fuel + 1, buf, .arrFix el cur fs (rem + 1) =>
    -- the fixed-size array loop: `n` windows of `fs` bytes each
    match readGo fuel buf (.typ el cur (cur + fs)) with
    | .error er => .error er
    | .ok (.vals _) => .error .typeMismatch
    | .ok (.val v) =>
      match readGo fuel buf (.arrFix el (cur + fs) fs rem) with
      | .error er => .error er
      | .ok (.val _) => .error .typeMismatch
      | .ok (.vals vs) => .ok (.vals (v :: vs))
  | _ + 1, _, .arrVar _ _ _ _ _ _ 0 _ => .ok (.vals [])
  | fuel + 1, buf, .arrVar el s e w n i (rem + 1) cur =>
    -- the variable-size array loop: element `i` ends at
    -- `offsets.read(-n + i)`, the next begins at the aligned end
    let next := offsetRead buf s e w ((i : Int) - n)
    match readGo fuel buf (.typ el cur next) with
    | .error er => .error er
    | .ok (.vals _) => .error .typeMismatch
    | .ok (.val v) =>
      match readGo fuel buf (.arrVar el s e w n (i + 1) rem (alignN next (alignment el))) with
      | .error er => .error er
      | .ok (.val _) => .error .typeMismatch
      | .ok (.vals vs) => .ok (.vals (v :: vs))

/-- The `read(buf, start, end)` entry point of a descriptor. -/
def read (fuel : Nat) (ty : GType) (buf : List Nat) (s e : Nat) : Except GErr Value :=
  match readGo fuel buf (.typ ty s e) with
  | .ok (.val v) => .ok v
  | .ok (.vals _) => .error .typeMismatch
  | .error er => .error er

/-- Call shapes of the writer: a single value, the tuple element loop and
the two array loops. -/
inductive WriteTask where
  | typ (ty : GType) (v : Value)
  | tupElems (els : List GType) (vs : List Value) (start : Nat) (offs : List Nat)
  | arrFix (el : GType) (vs : List Value)
  | arrVar (el : GType) (vs : List Value) (start : Nat) (offs : List Nat)

/-- The `write(value, buf)` closures of `nextType`: append the encoding of
the task's value(s) to `buf`, returning the new buffer and the offsets
recorded by the loop tasks (empty for `typ` tasks).  Values that do not
fit the descriptor's shape (where the JavaScript would die on the host
collaborator or write garbage) are signalled as `typeMismatch`; every
value in a type's domain has the matching shape. -/
def writeGo : Nat → WriteTask → List Nat → Except GErr (List Nat × List Nat)
  | 0, _, _ => .error .outOfFuel
  | _ + 1, .typ .y (.int n), buf => .ok (buf ++ leBytesI 1 n, [])
  | _ + 1, .typ .n (.int n), buf => .ok (buf ++ leBytesI 2 n, [])
  | _ + 1, .typ .q (.int n), buf => .ok (buf ++ leBytesI 2 n, [])
  | _ + 1, .typ .i (.int n), buf => .ok (buf ++ leBytesI 4 n, [])
  | _ + 1, .typ .u (.int n), buf => .ok (buf ++ leBytesI 4 n, [])
  | _ + 1, .typ .x (.int n), buf => .ok (buf ++ leBytesI 8 n, [])
  | _ + 1, .typ .t (.int n), buf => .ok (buf ++ leBytesI 8 n, [])
  | _ + 1, .typ .d (.float bits), buf => .ok (buf ++ leBytes 8 bits, [])
  | _ + 1, .typ .b (.bool bv), buf => .ok (buf ++ [if bv then 1 else 0], [])
  | _ + 1, .typ .s (.str bs), buf => .ok (buf ++ bs ++ [0], [])
  | _ + 1, .typ .o (.str bs), buf => .ok (buf ++ bs ++ [0], [])
  | _ + 1, .typ .g (.str bs), buf => .ok (buf ++ bs ++ [0], [])
  | fuel + 1, .typ .v (.variant tyStr val), buf =>
    match parseType tyStr with
    | .error er => .error er
    | .ok ty =>
      match writeGo fuel (.typ ty val) buf with
      | .error er => .error er
      | .ok bo => .ok (bo.1 ++ [0] ++ tyStr.data.map Char.toNat, [])
  | fuel + 1, .typ (.m el) val, buf =>
    let b := alignBuf buf (alignment (.m el))
    match val with
    | .null => .ok (b, [])
    | _ =>
      match writeGo fuel (.typ el val) b with
      | .error er => .error er
      | .ok bo => .ok (if (fixedSize el).isNone then bo.1 ++ [0] else bo.1, [])
  | fuel + 1, .typ (.tuple els) (.seq vs), buf =>
    if vs.length ≠ els.length then .error .typeMismatch
    else
      match writeGo fuel (.tupElems els vs buf.length []) buf with
      | .error er => .error er
      | .ok bo =>
        match writeOffsets bo.1 bo.2.reverse buf.length bo.1.length with
        | .error er => .error er
        | .ok b => .ok (b, [])
  | fuel + 1, .typ (.dict keyT valT) (.seq [kv, vv]), buf =>
    match writeGo fuel (.typ keyT kv) buf with
    | .error er => .error er
    | .ok bo1 =>
      let keyEnd := bo1.1.length - buf.length
      match writeGo fuel (.typ valT vv) (alignBuf bo1.1 (alignment valT)) with
      | .error er => .error er
      | .ok bo2 =>
        if (fixedSize keyT).isNone then
          match writeOffsets bo2.1 [keyEnd] buf.length bo2.1.length with
          | .error er => .error er
          | .ok b => .ok (b, [])
        else .ok (bo2.1, [])
  | fuel + 1, .typ (.array el) val, buf =>
    -- a mapping is first normalized to a list of [key, value] pairs
    match (match val with
           | .seq vs => some vs
           | .dict entries => some (entries.map fun p => .seq [p.1, p.2])
           | _ => none) with
    | none => .error .typeMismatch
    | some vs =>
      match fixedSize el with
      | some _ => writeGo fuel (.arrFix el vs) buf
      | none =>
        match writeGo fuel (.arrVar el vs buf.length []) buf with
        | .error er => .error er
        | .ok bo =>
          match writeOffsets bo.1 bo.2 buf.length bo.1.length with
          | .error er => .error er
          | .ok b => .ok (b, [])
  | _ + 1, .tupElems [] _ _ offs, buf => .ok (buf, offs)
  | _ + 1, .tupElems (_ :: _) [] _ _, _ => .error .typeMismatch
  | fuel + 1, .tupElems (el :: els) (v :: vs) start offs, buf =>
    -- the tuple loop: align, write, and record an offset after every
    -- variable-size non-last child
    match writeGo fuel (.typ el v) (alignBuf buf (alignment el)) with
    | .error er => .error er
    | .ok bo =>
      writeGo fuel
        (.tupElems els vs start
          (if (fixedSize el).isNone && !els.isEmpty then offs ++ [bo.1.length - start]
           else offs))
        bo.1
  | _ + 1, .arrFix _ [], buf => .ok (buf, [])
  | fuel + 1, .arrFix el (v :: vs), buf =>
    -- the fixed-size array loop: align and write each element
    match writeGo fuel (.typ el v) (alignBuf buf (alignment el)) with
    | .error er => .error er
    | .ok bo => writeGo fuel (.arrFix el vs) bo.1
  | _ + 1, .arrVar _ [] _ offs, buf => .ok (buf, offs)
  | fuel + 1, .arrVar el (v :: vs) start offs, buf =>
    -- the variable-size array loop: align, write, and record an offset
    -- after every element (forward order, unlike tuples)
    match writeGo fuel (.typ el v) (alignBuf buf (alignment el)) with
    | .error er => .error er
    | .ok bo => writeGo fuel (.arrVar el vs start (offs ++ [bo.1.length - start])) bo.1
  | _ + 1, .typ _ _, _ => .error .typeMismatch

/-- The `write(value, buf)` entry point of a descriptor. -/
def write (fuel : Nat) (ty : GType) (v : Value) (buf : List Nat) :
    Except GErr (List Nat) :=
  match writeGo fuel (.typ ty v) buf with
  | .ok bo => .ok bo.1
  | .error er => .error er


/-- `parse(typestr, data)`: parse the signature and read over
`[0, data.length)`.  The fuel provision is an artifact of the shallow
embedding; it is ample for every input considered below. -/
def parse (typestr : String) (data : List Nat) : Except GErr Value :=
  match parseType typestr with
  | .error er => .error er
  | .ok ty => read (data.length + typestr.length + 2) ty data 0 data.length

/-- `serialize(typestr, value)`: parse the signature and write into an
empty buffer. -/
def serialize (typestr : String) (value : Value) : Except GErr (List Nat) :=
  match parseType typestr with
  | .error er => .error er
  | .ok ty => write (vsize value + 2 * typestr.length + 2) ty value []

/-- The thirteen single-character (leaf) type codes. -/
def leafChars : List Char :=
  ['y', 'n', 'q', 'i', 'u', 'x', 't', 'd', 'b', 's', 'o', 'g', 'v']

/-- Every character with a `nextType` dispatch case. -/
def typeHeadChars : List Char := leafChars ++ ['m', 'a', '(', '{']

/-- Modelled from the spec (sections 3 and 4.1): a well-formed signature
describes exactly one complete type — a single-character leaf, `m`/`a`
followed by one complete type, a parenthesized run of complete types, or
a braced dict-entry of exactly two complete types with its closing
brace. -/
inductive IsSig : List Char → Prop
  | leaf (c : Char) : c ∈ leafChars → IsSig [c]
  | mb {body : List Char} : IsSig body → IsSig ('m' :: body)
  | arr {body : List Char} : IsSig body → IsSig ('a' :: body)
  | tup {ts : List (List Char)} : (∀ u ∈ ts, IsSig u) →
      IsSig ('(' :: (ts.flatten ++ [')']))
  | dct {k v : List Char} : IsSig k → IsSig v →
      IsSig ('{' :: (k ++ (v ++ ['}'])))

/-- Modelled from the spec (section 3): the domain of each type — the
values the type's readers can produce and its writers accept.  Texts are
NUL-free (an interior NUL is truncated on decode, so such texts are
outside the round-trip domain); integers are bounded by their width;
variants carry a parseable signature and a value in its domain; maybes
of any type never hold `null` in the Just case; arrays of dict-entries
are mappings, other arrays are sequences. -/
inductive Domain : GType → Value → Prop
  | y (n : Int) : 0 ≤ n → n < 256 → Domain .y (.int n)
  | n16 (z : Int) : -32768 ≤ z → z < 32768 → Domain .n (.int z)
  | q16 (z : Int) : 0 ≤ z → z < 65536 → Domain .q (.int z)
  | i32 (z : Int) : -2147483648 ≤ z → z < 2147483648 → Domain .i (.int z)
  | u32 (z : Int) : 0 ≤ z → z < 4294967296 → Domain .u (.int z)
  | x64 (z : Int) : -9223372036854775808 ≤ z → z < 9223372036854775808 →
      Domain .x (.int z)
  | t64 (z : Int) : 0 ≤ z → z < 18446744073709551616 → Domain .t (.int z)
  | dbl (bits : Nat) : bits < 18446744073709551616 → Domain .d (.float bits)
  | bl (bv : Bool) : Domain .b (.bool bv)
  | txtS (bs : List Nat) : (∀ c ∈ bs, 0 < c ∧ c < 256) → Domain .s (.str bs)
  | txtO (bs : List Nat) : (∀ c ∈ bs, 0 < c ∧ c < 256) → Domain .o (.str bs)
  | txtG (bs : List Nat) : (∀ c ∈ bs, 0 < c ∧ c < 256) → Domain .g (.str bs)
  | var (tyStr : String) (ty : GType) (v : Value) :
      parseType tyStr = .ok ty → Domain ty v → Domain .v (.variant tyStr v)
  | mbNone (el : GType) : Domain (.m el) .null
  | mbSome (el : GType) (v : Value) : Domain el v → v ≠ .null → Domain (.m el) v
  | tup (els : List GType) (vs : List Value) :
      List.Forall₂ Domain els vs → Domain (.tuple els) (.seq vs)
  | dctE (keyT valT : GType) (kv vv : Value) :
      Domain keyT kv → Domain valT vv → Domain (.dict keyT valT) (.seq [kv, vv])
  | arrSeq (el : GType) (vs : List Value) : (∀ v ∈ vs, Domain el v) →
      (idOf el).head? ≠ some '{' → Domain (.array el) (.seq vs)
  | arrDict (keyT valT : GType) (entries : List (Value × Value)) :
      (∀ p ∈ entries, Domain keyT p.1) → (∀ p ∈ entries, Domain valT p.2) →
      Domain (.array (.dict keyT valT)) (.dict entries)

/-- Claim C1: the claim states that `parse(σ, serialize(σ, v)) = v` for
every well-formed σ and every v in σ's domain.  It fails on the code: the
tuple writer emits no bytes at all for the empty tuple `()` although the
descriptor declares `fixedSize = 1`, so `serialize("a()", [[]])` produces
the empty byte sequence, which parses back to `[]` — the element is lost.
The theorem evaluates the code at this failing input: the value is in the
signature's domain, yet the round trip returns a different value. -/
theorem roundTrip_fails_on_empty_tuple_array :
    Domain (.array (.tuple [])) (.seq [.seq []])
    ∧ serialize "a()" (.seq [.seq []]) = .ok []
    ∧ parse "a()" [] = .ok (.seq [])
    ∧ Value.seq [] ≠ Value.seq [.seq []] := by
  refine ⟨?_, rfl, rfl, by simp⟩
  refine Domain.arrSeq _ _ (fun v hv => ?_) (by decide)
  rcases List.mem_singleton.mp hv with rfl
  exact Domain.tup [] [] List.Forall₂.nil

/-- Claim C2: the claim states that decode is total — `parse(σ, b)` never
raises for any well-formed σ and byte sequence b.  It fails on the code:
the variant reader recursively parses the scanned signature, and when
the frame contains no NUL the whole frame is taken as the signature, so
`parse("v", [0x41])` reaches `parseType("A")`, which throws the
invalid-signature `TypeError`. -/
theorem parse_variant_raises_invalid_signature :
    parse "v" [0x41] = .error .invalidSignature := rfl

/-- Claim C3: the claim states that a variant frame with no 0x00 byte
reads as the default `{ "()", [] }`.  No such fallback exists in the
code: on the NUL-free frame `[0x69]` the whole frame is decoded as the
signature `"i"` and the empty data parses to `0`, so the reader returns
`{ "i", 0 }` instead of the default (and throws when the frame is not a
valid signature, as the C2 theorem shows). -/
theorem variant_no_nul_not_default :
    parse "v" [0x69] = .ok (.variant "i" (.int 0))
    ∧ Value.variant "i" (.int 0) ≠ .variant "()" (.seq []) := by
  refine ⟨rfl, by simp⟩

/-- Claim C4: the claim states that `serialize("()", [])` produces exactly
one zero byte and that `parse("()", b)` returns `[]` for every one-byte
`b`.  The parse half holds, but the serialize half fails on the code:
the tuple writer loops over zero children and pads nothing, emitting the
empty byte sequence although the descriptor declares `fixedSize = 1`. -/
theorem unit_tuple_write_empty_parse_any_byte :
    serialize "()" (.seq []) = .ok []
    ∧ ([] : List Nat) ≠ [0]
    ∧ ∀ b : Nat, parse "()" [b] = .ok (.seq []) :=
  ⟨rfl, by simp, fun _ => rfl⟩

/-- Each offset cell in a written table occupies exactly `w` bytes. -/
theorem sum_map_length_leBytes (w : Nat) (offs : List Nat) :
    (List.map (List.length ∘ leBytes w) offs).sum = offs.length * w := by
  induction offs with
  | nil => simp
  | cons o os ih => simp [ih, leBytes, Nat.succ_mul, Nat.add_comm]

/-- Unfolding equation of the `read` entry point (the name `read` is
overloaded in the ambient library, so rewriting goes through this
lemma). -/
theorem read_typ_eq (fuel : Nat) (ty : GType) (buf : List Nat) (s e : Nat) :
    read fuel ty buf s e
      = (match readGo fuel buf (.typ ty s e) with
         | .ok (.val v) => .ok v
         | .ok (.vals _) => .error .typeMismatch
         | .error er => .error er) := rfl

/-- Reading the array reader's entry before any byte is touched: with a
variable-size element and a frame longer than `0xffffffff`, the width
selection fails first. -/
theorem readGo_array_var_rangeError (f : Nat) (el : GType) (buf : List Nat)
    (s e : Nat) (hne : s ≠ e) (hfs : fixedSize el = none)
    (hbig : 0xffffffff < e - s) :
    readGo (f + 1) buf (.typ (.array el) s e) = .error .rangeError := by
  simp only [readGo, if_neg hne, hfs, offsetInfo]
  rw [if_neg (by omega), if_neg (by omega), if_neg (by omega)]

/-- Claim C5, counterexample: the claim states the out-of-range error is
raised only during write and that read never raises it for any input;
but `parse("as", b)` on a buffer of `0x100000001` bytes reaches
`offsetInfo` with a frame longer than `0xffffffff` and raises the
`RangeError` during read. -/
theorem read_offset_rangeError_on_huge_frame :
    parse "as" (List.replicate 4294967297 0) = .error .rangeError := by
  have hty : parseType "as" = .ok (.array .s) := rfl
  have hlen : (List.replicate 4294967297 (0 : Nat)).length = 4294967297 :=
    List.length_replicate _ _
  simp only [parse, hty, hlen]
  rw [read_typ_eq]
  rw [show (4294967297 : Nat) + String.length "as" + 2 = 4294967300 + 1 from rfl]
  rw [readGo_array_var_rangeError 4294967300 .s _ 0 4294967297
    (by omega) rfl (by norm_num)]

/-- Claim C5, as amended: the width-selection error behaviour of the
offset codec — during read (`offsetInfo`) the width is inferred from the
frame length and succeeds exactly for frames of at most `0xffffffff`
bytes, raising the out-of-range error beyond that; the write side
(`writeOffsets`) raises the same error for exactly the same frames. -/
theorem offset_error_read_and_write :
    (∀ s e : Nat, e - s ≤ 0xffffffff → ∃ w, offsetInfo s e = .ok w)
    ∧ (∀ s e : Nat, 0xffffffff < e - s →
        offsetInfo s e = .error .rangeError
        ∧ ∀ buf offs, writeOffsets buf offs s e = .error .rangeError) := by
  constructor
  · intro s e h
    unfold offsetInfo
    split_ifs <;> exact ⟨_, rfl⟩
  · intro s e h
    refine ⟨?_, fun buf offs => ?_⟩
    · unfold offsetInfo
      rw [if_neg (by omega), if_neg (by omega), if_neg (by omega)]
    · unfold writeOffsets
      rw [if_neg (by omega), if_neg (by omega), if_neg (by omega)]

/-- Claim C5, witness for the amended theorem at concrete frames. -/
theorem offset_error_read_and_write_witness :
    (∃ w, offsetInfo 0 10 = .ok w)
    ∧ (offsetInfo 0 4294967296 = .error .rangeError
       ∧ ∀ buf offs, writeOffsets buf offs 0 4294967296 = .error .rangeError) :=
  ⟨offset_error_read_and_write.1 0 10 (by decide),
   offset_error_read_and_write.2 0 4294967296 (by norm_num)⟩

/-- Claim C6: the offset-cell width is a function of `end - start` alone —
1 byte for lengths up to `0xff`, 2 up to `0xffff`, 4 up to `0xffffffff`,
the out-of-range error beyond; at each boundary the width steps once
(1 to 2 at `0x100`, 2 to 4 at `0x10000`, 4 to the error at
`0x100000000`); and `writeOffsets` uses the same width as `offsetInfo`
(each written table grows the buffer by exactly width-times-count
bytes). -/
theorem offset_width_piecewise :
    ∀ s e : Nat,
      offsetInfo s e = offsetInfo 0 (e - s)
      ∧ (e - s ≤ 0xff → offsetInfo s e = .ok 1)
      ∧ (0xff < e - s ∧ e - s ≤ 0xffff → offsetInfo s e = .ok 2)
      ∧ (0xffff < e - s ∧ e - s ≤ 0xffffffff → offsetInfo s e = .ok 4)
      ∧ (0xffffffff < e - s → offsetInfo s e = .error .rangeError)
      ∧ (∀ buf offs, (writeOffsets buf offs s e).map List.length
          = (offsetInfo s e).map fun w => buf.length + offs.length * w)
      ∧ (offsetInfo 0 0xff = .ok 1 ∧ offsetInfo 0 0x100 = .ok 2
         ∧ offsetInfo 0 0xffff = .ok 2 ∧ offsetInfo 0 0x10000 = .ok 4
         ∧ offsetInfo 0 0xffffffff = .ok 4
         ∧ offsetInfo 0 0x100000000 = .error .rangeError) := by
  intro s e
  refine ⟨?_, ?_, ?_, ?_, ?_, ?_, by norm_num [offsetInfo]⟩
  · unfold offsetInfo
    simp only [Nat.sub_zero]
  · intro h; unfold offsetInfo; rw [if_pos h]
  · rintro ⟨h1, h2⟩; unfold offsetInfo
    rw [if_neg (by omega), if_pos h2]
  · rintro ⟨h1, h2⟩; unfold offsetInfo
    rw [if_neg (by omega), if_neg (by omega), if_pos h2]
  · intro h; unfold offsetInfo
    rw [if_neg (by omega), if_neg (by omega), if_neg (by omega)]
  · intro buf offs
    unfold offsetInfo writeOffsets
    split_ifs <;>
      simp [Except.map, sum_map_length_leBytes, List.length_append, Nat.mul_comm]

/-- Claim C6, witness at concrete frames in each width band. -/
theorem offset_width_piecewise_witness :
    offsetInfo 3 10 = .ok 1 ∧ offsetInfo 0 300 = .ok 2
    ∧ offsetInfo 0 70000 = .ok 4 ∧ offsetInfo 0 4294967296 = .error .rangeError :=
  ⟨(offset_width_piecewise 3 10).2.1 (by norm_num),
   (offset_width_piecewise 0 300).2.2.1 (by norm_num),
   (offset_width_piecewise 0 70000).2.2.2.1 (by norm_num),
   (offset_width_piecewise 0 4294967296).2.2.2.2.1 (by norm_num)⟩

/-- The source's `indexOf`-then-`substring` truncation equals truncation at
the first NUL. -/
theorem findIdx_take_eq_takeWhile (l : List Nat) :
    (match l.findIdx? (fun b => b == 0) with
     | some nul => l.take nul
     | none => l) = l.takeWhile (fun b => b != 0) := by
  induction l with
  | nil => rfl
  | cons a l ih =>
    by_cases ha : a = 0
    · subst ha
      simp [List.takeWhile_cons]
    · have hpa : (a == 0) = false := by simp [ha]
      have hne : (a != 0) = true := by simp [ha]
      rw [List.takeWhile_cons, hne]
      simp only [List.findIdx?_cons, hpa, Bool.false_eq_true, if_false,
        List.findIdx?_start_succ]
      cases h : l.findIdx? (fun b => b == 0) with
      | none =>
        rw [h] at ih
        simpa using ih
      | some nul =>
        rw [h] at ih
        simpa [List.take_succ_cons] using ih

/-- The text reader in the claim's phrasing: empty frame or missing
trailing NUL gives the empty text, otherwise the decoded range truncated
at the first interior NUL. -/
theorem stringRead_spec (buf : List Nat) (s e : Nat) :
    stringRead buf s e =
      if s = e ∨ getByte buf (e - 1) ≠ 0 then []
      else (listSlice buf s (e - 1)).takeWhile (fun b => b != 0) := by
  unfold stringRead
  by_cases h : s = e ∨ getByte buf (e - 1) ≠ 0
  · rw [if_pos h]
    have hc : (decide (s = e) || (getByte buf (e - 1) != 0)) = true := by
      rcases h with h | h <;> simp [h]
    simp [hc]
  · push_neg at h
    have hc : (decide (s = e) || (getByte buf (e - 1) != 0)) = false := by
      simp [h.1, h.2]
    simp only [hc, Bool.false_eq_true, if_false]
    rw [if_neg (by push_neg; exact h)]
    exact findIdx_take_eq_takeWhile _

/-- Claim C8: for the text types `s`, `o`, `g` and every frame `[s, e)` of
the buffer, the reader returns the empty text when the frame is empty or
its last byte is not 0x00, and otherwise the decoding of `[s, e-1)`
truncated at the first interior NUL. -/
theorem string_read_spec :
    ∀ ty : GType, ty = .s ∨ ty = .o ∨ ty = .g →
    ∀ (f : Nat) (buf : List Nat) (s e : Nat), s ≤ e → e ≤ buf.length →
      read (f + 1) ty buf s e =
        .ok (.str (if s = e ∨ getByte buf (e - 1) ≠ 0 then []
                   else (listSlice buf s (e - 1)).takeWhile (fun b => b != 0))) := by
  intro ty hty f buf s e _ _
  rcases hty with rfl | rfl | rfl <;>
    · rw [read_typ_eq]
      simp only [readGo]
      rw [stringRead_spec]

/-- Claim C8, witness: the frame `[0, 3)` of `"hi\0"` reads back `"hi"`. -/
theorem string_read_spec_witness :
    read 1 GType.s [104, 105, 0] 0 3 = .ok (.str [104, 105]) := by
  have h := string_read_spec .s (Or.inl rfl) 0 [104, 105, 0] 0 3
    (by norm_num) (by norm_num)
  simpa using h

/-- Claim C9: under signature `b`, a one-byte frame decodes to `true`
exactly when the byte is nonzero (any nonzero byte, not only 1), and any
frame whose length differs from 1 decodes to `false`. -/
theorem bool_read_spec :
    (∀ x : Nat, parse "b" [x] = .ok (.bool (x != 0)))
    ∧ ∀ bs : List Nat, bs.length ≠ 1 → parse "b" bs = .ok (.bool false) := by
  constructor
  · intro x
    rfl
  · intro bs h
    have hty : parseType "b" = .ok .b := rfl
    simp only [parse, hty, read_typ_eq]
    rw [show bs.length + String.length "b" + 2 = (bs.length + 2) + 1 from rfl]
    simp only [readGo, Nat.sub_zero]
    rw [if_pos h]

/-- Claim C9, witness: the empty frame decodes to `false`. -/
theorem bool_read_spec_witness : parse "b" [] = .ok (.bool false) :=
  bool_read_spec.2 [] (by norm_num)

/-- Claim C10: for an array of fixed-size dict-entries, a non-empty frame
whose length is not a multiple of the entry size parses to the empty
sequence (the early return precedes the mapping fold), while an empty
frame parses to the empty mapping — values of different shapes. -/
theorem array_fixed_dict_read_spec :
    ∀ (f : Nat) (keyT valT : GType) (fs : Nat),
      fixedSize (.dict keyT valT) = some fs →
      ∀ (buf : List Nat) (s e : Nat),
        (s = e → read (f + 1) (.array (.dict keyT valT)) buf s e = .ok (.dict []))
        ∧ (s < e → ((e : Int) - (s : Int)).tmod (fs : Int) ≠ 0 →
            read (f + 1) (.array (.dict keyT valT)) buf s e = .ok (.seq [])) := by
  intro f keyT valT fs hfs buf s e
  constructor
  · intro hse
    subst hse
    rw [read_typ_eq]
    simp [readGo, idOf]
  · intro hlt hmod
    rw [read_typ_eq]
    simp only [readGo, if_neg (by omega : ¬ s = e), hfs]
    rw [if_pos hmod]

/-- Claim C10, witness: `a{yy}` (entry size 2) over an empty frame gives
the empty mapping and over a 3-byte frame gives the empty sequence. -/
theorem array_fixed_dict_read_spec_witness :
    read 1 (.array (.dict .y .y)) [] 0 0 = .ok (.dict [])
    ∧ read 1 (.array (.dict .y .y)) [0, 0, 0] 0 3 = .ok (.seq []) :=
  ⟨(array_fixed_dict_read_spec 0 .y .y 2 rfl [] 0 0).1 rfl,
   (array_fixed_dict_read_spec 0 .y .y 2 rfl [0, 0, 0] 0 3).2 (by norm_num)
     (by decide)⟩

/-- A well-formed signature is non-empty. -/
theorem IsSig.ne_nil {t : List Char} (h : IsSig t) : t ≠ [] := by
  cases h <;> simp

/-- A well-formed signature never starts with a closing parenthesis. -/
theorem IsSig.head_ne_rparen {t : List Char} (h : IsSig t) :
    t.head? ≠ some ')' := by
  cases h with
  | leaf c hc =>
    have hall : ∀ d ∈ leafChars, d ≠ ')' := by decide
    simpa using hall c hc
  | mb _ => simp
  | arr _ => simp
  | tup _ => simp
  | dct _ _ => simp

/-- Completeness of the signature parser: on a well-formed signature
(followed by anything) `nextType` succeeds and consumes exactly the
signature, given fuel at least twice its length. -/
theorem nextTypeF_complete {t : List Char} (h : IsSig t) :
    ∀ (rest : List Char) (f : Nat), 2 * t.length ≤ f →
      ∃ g0, nextTypeF f (t ++ rest) = some (g0, t.length) := by
  induction h with
  | leaf c hc =>
    intro rest f hf
    obtain ⟨f', rfl⟩ : ∃ f', f = f' + 1 := ⟨f - 1, by simp at hf; omega⟩
    fin_cases hc <;> exact ⟨_, rfl⟩
  | mb hb ih =>
    intro rest f hf
    simp only [List.length_cons] at hf
    obtain ⟨f', rfl⟩ : ∃ f', f = f' + 1 := ⟨f - 1, by omega⟩
    obtain ⟨g0, hg⟩ := ih rest f' (by omega)
    exact ⟨.m g0, by simp [nextTypeF, hg]⟩
  | arr hb ih =>
    intro rest f hf
    simp only [List.length_cons] at hf
    obtain ⟨f', rfl⟩ : ∃ f', f = f' + 1 := ⟨f - 1, by omega⟩
    obtain ⟨g0, hg⟩ := ih rest f' (by omega)
    exact ⟨.array g0, by simp [nextTypeF, hg]⟩
  | dct hk hv ihk ihv =>
    rename_i k v
    intro rest f hf
    simp only [List.length_cons, List.length_append] at hf
    obtain ⟨f', rfl⟩ : ∃ f', f = f' + 1 := ⟨f - 1, by omega⟩
    obtain ⟨gk, hgk⟩ := ihk (v ++ '}' :: rest) f' (by omega)
    obtain ⟨gv, hgv⟩ := ihv ('}' :: rest) f' (by omega)
    refine ⟨.dict gk gv, ?_⟩
    have e1 : ('{' :: (k ++ (v ++ ['}']))) ++ rest
        = '{' :: (k ++ (v ++ '}' :: rest)) := by simp
    rw [e1]
    simp only [nextTypeF, hgk]
    rw [List.drop_left]
    simp only [hgv, Option.some.injEq, Prod.mk.injEq, List.length_append,
      List.length_cons, List.length_nil, true_and]
    omega
  | tup hts ih =>
    rename_i ts
    intro rest f hf
    have inner : ∀ (us : List (List Char)),
        (∀ u ∈ us, ∀ (rest : List Char) (f : Nat), 2 * u.length ≤ f →
            ∃ g0, nextTypeF f (u ++ rest) = some (g0, u.length)) →
        (∀ u ∈ us, IsSig u) →
        ∀ (rest : List Char) (f : Nat), 2 * us.flatten.length + 2 ≤ f →
          ∃ gs, tupleBodyF f (us.flatten ++ ')' :: rest)
            = some (gs, us.flatten.length + 1) := by
      intro us
      induction us with
      | nil =>
        intro _ _ rest f hf
        obtain ⟨f', rfl⟩ : ∃ f', f = f' + 1 := ⟨f - 1, by omega⟩
        exact ⟨[], by simp [tupleBodyF]⟩
      | cons u us ihus =>
        intro ihall hall rest f hf
        simp only [List.flatten_cons, List.length_append] at hf
        obtain ⟨f', rfl⟩ : ∃ f', f = f' + 1 := ⟨f - 1, by omega⟩
        have hu : IsSig u := hall u (by simp)
        obtain ⟨c, cs, rfl⟩ : ∃ c cs, u = c :: cs := by
          cases u with
          | nil => exact absurd rfl hu.ne_nil
          | cons c cs => exact ⟨c, cs, rfl⟩
        have hcne : ¬(c = ')') := by simpa using hu.head_ne_rparen
        obtain ⟨g0, hg⟩ := ihall (c :: cs) (by simp) (us.flatten ++ ')' :: rest) f'
          (by simp only [List.length_cons] at hf ⊢; omega)
        obtain ⟨gs, hgs⟩ := ihus
          (fun w hw => ihall w (by simp [hw]))
          (fun w hw => hall w (by simp [hw]))
          rest f' (by simp only [List.length_cons] at hf ⊢; omega)
        refine ⟨g0 :: gs, ?_⟩
        rw [List.flatten_cons]
        have e1 : ((c :: cs) ++ us.flatten) ++ ')' :: rest
            = c :: (cs ++ (us.flatten ++ ')' :: rest)) := by simp
        rw [e1]
        simp only [tupleBodyF, if_neg hcne]
        have e2 : c :: (cs ++ (us.flatten ++ ')' :: rest))
            = (c :: cs) ++ (us.flatten ++ ')' :: rest) := by simp
        rw [e2]
        simp only [hg]
        rw [List.drop_left]
        simp only [hgs, Option.some.injEq, Prod.mk.injEq, List.length_append,
          List.length_cons, List.length_nil, true_and]
        omega
    simp only [List.length_cons, List.length_append, List.length_singleton] at hf
    obtain ⟨f', rfl⟩ : ∃ f', f = f' + 1 := ⟨f - 1, by omega⟩
    obtain ⟨gs, hgs⟩ := inner ts ih hts rest f' (by omega)
    refine ⟨.tuple gs, ?_⟩
    have e1 : ('(' :: (ts.flatten ++ [')'])) ++ rest
        = '(' :: (ts.flatten ++ ')' :: rest) := by simp
    rw [e1]
    simp only [nextTypeF, hgs]
    simp [List.length_append]

/-- Claim C7, counterexample: the claim states every malformed signature is
rejected; but the dict-entry case never checks its closing brace — the
id is sliced with a clamped `substr` — so the malformed signature
`"{sv"` (three characters, no closing brace) is accepted by `parseType`
without any error. -/
theorem parseType_accepts_malformed_dict :
    ¬ IsSig "\x7bsv".data ∧ ∃ ty, parseType "\x7bsv" = .ok ty := by
  refine ⟨?_, ⟨.dict .s .v, rfl⟩⟩
  intro h
  rw [show ("\x7bsv".data) = ['{', 's', 'v'] from rfl] at h
  obtain ⟨t0, ht0, h⟩ : ∃ t0, t0 = ['{', 's', 'v'] ∧ IsSig t0 :=
    ⟨['{', 's', 'v'], rfl, h⟩
  cases h with
  | leaf c hc => simp at ht0
  | mb hb => simp at ht0
  | arr hb => simp at ht0
  | tup hts => simp at ht0
  | dct hk hv =>
    rename_i k v
    simp only [List.cons.injEq, true_and] at ht0
    have hlen := congrArg List.length ht0
    simp only [List.length_append, List.length_cons, List.length_nil] at hlen
    have hk1 : 0 < k.length := List.length_pos.mpr hk.ne_nil
    have hv1 : 0 < v.length := List.length_pos.mpr hv.ne_nil
    omega

/-- Claim C7, as amended: `parseType` accepts every well-formed signature;
it rejects the empty string and any signature whose first character is
not a type character, with the invalid-signature error; and a
`parseType` error propagates unchanged to `parse` and `serialize`.
(The full malformed-direction of the claim fails: dict-entry closing
braces are never checked, see the counterexample.) -/
theorem parseType_spec :
    (∀ σ : String, IsSig σ.data → ∃ ty, parseType σ = .ok ty)
    ∧ (∀ σ : String, (∀ c, σ.data.head? = some c → c ∉ typeHeadChars) →
        parseType σ = .error .invalidSignature)
    ∧ (∀ (σ : String) (b : List Nat) (val : Value) (er : GErr),
        parseType σ = .error er →
        parse σ b = .error er ∧ serialize σ val = .error er) := by
  refine ⟨?_, ?_, ?_⟩
  · intro σ hs
    obtain ⟨g0, hg⟩ := nextTypeF_complete hs [] (2 * σ.length + 4)
      (by rw [show σ.data.length = σ.length from rfl]; omega)
    refine ⟨g0, ?_⟩
    unfold parseType
    rw [List.append_nil] at hg
    simp only [hg]
    rw [if_pos (show σ.data.length = σ.length from rfl)]
  · intro σ hc
    unfold parseType
    cases hd : σ.data with
    | nil =>
      rw [show 2 * σ.length + 4 = (2 * σ.length + 3) + 1 from rfl]
      simp [nextTypeF]
    | cons c cs =>
      have hnotin : c ∉ typeHeadChars := hc c (by rw [hd]; rfl)
      rw [show 2 * σ.length + 4 = (2 * σ.length + 3) + 1 from rfl]
      have hnone : nextTypeF ((2 * σ.length + 3) + 1) (c :: cs) = none := by
        simp only [nextTypeF]
        split <;> simp_all [typeHeadChars, leafChars]
      simp only [hnone]
  · intro σ b val er h
    constructor
    · simp only [parse, h]
    · simp only [serialize, h]

/-- Claim C7, witness: the well-formed `"a{sv}"` parses, the unknown token
`"z"` is rejected, and the rejection propagates to `parse` and
`serialize`. -/
theorem parseType_spec_witness :
    (∃ ty, parseType "a{sv}" = .ok ty)
    ∧ parseType "z" = .error .invalidSignature
    ∧ (parse "z" [] = .error .invalidSignature
       ∧ serialize "z" .null = .error .invalidSignature) :=
  ⟨parseType_spec.1 "a{sv}"
      (IsSig.arr (@IsSig.dct ['s'] ['v']
        (IsSig.leaf 's' (by decide)) (IsSig.leaf 'v' (by decide)))),
   parseType_spec.2.1 "z" (by
      intro c hc
      rw [show ("z".data) = ['z'] from rfl] at hc
      simp only [List.head?_cons, Option.some.injEq] at hc
      subst hc
      decide),
   parseType_spec.2.2 "z" [] .null .invalidSignature
     (parseType_spec.2.1 "z" (by
        intro c hc
        rw [show ("z".data) = ['z'] from rfl] at hc
        simp only [List.head?_cons, Option.some.injEq] at hc
        subst hc
        decide))⟩
